import Mathlib

/-!
# Verification of the Apple ANS NVMe queue/DMA engine

Shallow embedding of the core of `drivers/nvme/host/apple-ans.c`:
the per-tag tracking table (TCB), the command submission path, the
completion-ring head/phase bookkeeping, the PRP descriptor-chain builder
and the timeout/abort/reset handler, together with proofs of the
specified properties.

Machine integers are modelled as `Nat` (unsigned quantities that are
never decremented below zero in the source: addresses, tags, counters)
and `Int` (C `int` quantities that the source deliberately lets go
negative: `length`, `dma_len`, the atomic abort budget).  MMIO and
DMA-visible stores are modelled as an explicit trace of write events in
program order.
-/

namespace AppleAns

/-- `NVME_CTRL_PAGE_SIZE`: the controller page size, 4096 bytes. -/
def ctrlPageSize : Nat := 4096

/-- The `blk_status_t` values the embedded code can produce.
`ok` = `BLK_STS_OK`, `ioerr` = `BLK_STS_IOERR`,
`resource` = `BLK_STS_RESOURCE`, `devResource` = `BLK_STS_DEV_RESOURCE`
(the "not ready, retry later" kind). -/
inductive BlkStatus where
  | ok
  | ioerr
  | resource
  | devResource
  deriving DecidableEq, Repr

/-- The fields of `struct nvme_command` the submission path reads:
opcode, command id, the two PRP pointer fields, the `rw.length` field
mirrored into the TCB, and the direction bit computed by the external
helper `nvme_is_write`. -/
structure NvmeCmd where
  opcode : Nat
  command_id : Nat
  prp1 : Nat
  prp2 : Nat
  rw_length : Nat
  isWrite : Bool
  deriving DecidableEq, Repr

/-- `struct apple_nvmmu_tcb`: the 128-byte per-tag tracking entry.
The `_unk`/`aes` regions are carried as fields so that "fully zeroed"
is about the whole slot. -/
structure Tcb where
  opcode : Nat
  dma_flags : Nat
  command_id : Nat
  unk0 : Nat
  length : Nat
  unk1a : Nat
  unk1b : Nat
  prp1 : Nat
  prp2 : Nat
  unk2a : Nat
  unk2b : Nat
  aes_iv : Nat
  aes_unk : Nat
  deriving DecidableEq, Repr

/-- The all-zero TCB slot (`memset(tcb, 0, sizeof(*tcb))`). -/
def zeroTcb : Tcb :=
  { opcode := 0, dma_flags := 0, command_id := 0, unk0 := 0, length := 0
    unk1a := 0, unk1b := 0, prp1 := 0, prp2 := 0, unk2a := 0, unk2b := 0
    aes_iv := 0, aes_unk := 0 }

/-- `APPLE_ANS2_TCB_DMA_FROM_DEVICE` = BIT(0). -/
def tcbDmaFromDevice : Nat := 1
/-- `APPLE_ANS2_TCB_DMA_TO_DEVICE` = BIT(1). -/
def tcbDmaToDevice : Nat := 2

/-- DMA/MMIO-visible stores issued by the engine, in program order:
a write filling a tag's TCB slot, a 64-byte command write into a
submission-ring slot, a submission doorbell write
(`writel(tag, nvmeq->ans2_q_db)`), and a write of a tag to the
`APPLE_NVMMU_TCB_INVAL` register. -/
inductive HwWrite where
  | tcbWrite (tag : Nat) (t : Tcb)
  | cmdWrite (tag : Nat) (c : NvmeCmd)
  | doorbell (tag : Nat)
  | invalReg (tag : Nat)
  deriving DecidableEq, Repr

/-- The DMA-shared memory of one queue: the TCB array indexed by tag and
the submission-ring slots indexed by tag (`none` = slot never written). -/
structure QueueMem where
  tcbs : Nat → Tcb
  sq : Nat → Option NvmeCmd

/-- Modelled from the spec: the external helper `nvme_tag_from_cid`
(declared in the out-of-tree header `nvme.h`) maps a command id to the
tag indexing the tracking table and submission ring; the spec treats the
tag as the integer identifying the command, so the map is the identity
here. -/
def nvme_tag_from_cid (cid : Nat) : Nat := cid

/-- The TCB contents `apple_nvme_submit_cmd` writes for a command:
zeroed slot, then opcode, prp1, prp2, length, command id and the
direction flag. -/
def tcbOfCmd (cmd : NvmeCmd) : Tcb :=
  { zeroTcb with
    opcode := cmd.opcode
    prp1 := cmd.prp1
    prp2 := cmd.prp2
    length := cmd.rw_length
    command_id := nvme_tag_from_cid cmd.command_id
    dma_flags := if cmd.isWrite then tcbDmaToDevice else tcbDmaFromDevice }

/-- `apple_nvme_submit_cmd`: fill the tag's TCB slot, copy the command
into the submission-ring slot indexed by the tag, write the tag to the
queue doorbell.  Returns the updated shared memory and the trace of
hardware-visible writes in program order. -/
def apple_nvme_submit_cmd (m : QueueMem) (cmd : NvmeCmd) :
    QueueMem × List HwWrite :=
  let tag := nvme_tag_from_cid cmd.command_id
  let tcb := tcbOfCmd cmd
  ({ tcbs := fun t => if t = tag then tcb else m.tcbs t
     sq := fun t => if t = tag then some cmd else m.sq t },
   [.tcbWrite tag tcb, .cmdWrite tag cmd, .doorbell tag])

/-- `apple_nvmmu_inval`: zero the tag's TCB slot and write the tag to
the `APPLE_NVMMU_TCB_INVAL` register (the subsequent `TCB_STAT` read
only produces a warning and changes no state). -/
def apple_nvmmu_inval (m : QueueMem) (tag : Nat) : QueueMem × List HwWrite :=
  ({ m with tcbs := fun t => if t = tag then zeroTcb else m.tcbs t },
   [.invalReg tag])

/-- The write order claimed by the spec for the submission path:
first the command write, then the tracking-table write, then the
doorbell. -/
def specClaimedOrder (tr : List HwWrite) : Prop :=
  ∃ tag c t, tr = [.cmdWrite tag c, .tcbWrite tag t, .doorbell tag]

/-- A concrete command used to exercise the submission path. -/
def sampleCmd : NvmeCmd :=
  { opcode := 2, command_id := 7, prp1 := 4096, prp2 := 8192
    rw_length := 7, isWrite := false }

/-- A concrete initial queue memory. -/
def emptyMem : QueueMem := { tcbs := fun _ => zeroTcb, sq := fun _ => none }

/-- C2, counterexample: submitting a concrete command produces the write
trace TCB-write, command-write, doorbell — not the claimed order
command-write first, tracking-table write second. -/
theorem submit_cmd_order_counterexample :
    ¬ specClaimedOrder (apple_nvme_submit_cmd emptyMem sampleCmd).2 := by
  rintro ⟨tag, c, t, h⟩
  simp [apple_nvme_submit_cmd, emptyMem, sampleCmd] at h

/-- C2 (amended): for every command, the submission path performs
exactly three hardware-visible writes — one tracking-table (TCB) write,
one 64-byte command write into the submission-ring slot indexed by the
tag, and one doorbell write — in that order: TCB write first, then
command write, then doorbell; and afterwards the ring slot indexed by
the tag holds the command and the tag's TCB slot mirrors its fields. -/
theorem submit_cmd_three_writes_in_order (m : QueueMem) (cmd : NvmeCmd) :
    (apple_nvme_submit_cmd m cmd).2 =
      [.tcbWrite (nvme_tag_from_cid cmd.command_id) (tcbOfCmd cmd),
       .cmdWrite (nvme_tag_from_cid cmd.command_id) cmd,
       .doorbell (nvme_tag_from_cid cmd.command_id)] ∧
    (apple_nvme_submit_cmd m cmd).1.sq (nvme_tag_from_cid cmd.command_id) =
      some cmd ∧
    (apple_nvme_submit_cmd m cmd).1.tcbs (nvme_tag_from_cid cmd.command_id) =
      tcbOfCmd cmd := by
  refine ⟨rfl, ?_, ?_⟩ <;> simp [apple_nvme_submit_cmd]

/-- C8: arming a tag's tracking slot during submission and then
invalidating that tag leaves the 128-byte slot fully zeroed; and a
second invalidate of the same tag without an intervening arm changes no
slot's contents (the zeroing is idempotent on the whole table). -/
theorem arm_inval_zeroes_and_inval_idempotent :
    (∀ (m : QueueMem) (cmd : NvmeCmd),
      (apple_nvmmu_inval (apple_nvme_submit_cmd m cmd).1
          (nvme_tag_from_cid cmd.command_id)).1.tcbs
          (nvme_tag_from_cid cmd.command_id) = zeroTcb) ∧
    (∀ (m : QueueMem) (tag : Nat),
      (apple_nvmmu_inval (apple_nvmmu_inval m tag).1 tag).1.tcbs =
        (apple_nvmmu_inval m tag).1.tcbs) := by
  constructor
  · intro m cmd
    simp [apple_nvmmu_inval]
  · intro m tag
    funext t
    by_cases h : t = tag <;> simp [apple_nvmmu_inval, h]

/-! ## Completion ring: head/phase bookkeeping and the reaper loop -/

/-- The completion side of `struct apple_nvme_queue`: ring depth,
current completion head, current phase bit, and the `status` field of
each completion entry (read-only to the host). -/
structure CQueue where
  q_depth : Nat
  cq_head : Nat
  cq_phase : Nat
  cqes : Nat → Nat

/-- `apple_nvme_cqe_pending`: the entry at `cq_head` is fresh exactly
when the low bit of its status equals the queue's current phase. -/
def apple_nvme_cqe_pending (q : CQueue) : Bool :=
  (q.cqes q.cq_head) % 2 = q.cq_phase

/-- `apple_nvme_update_cq_head`: advance the completion head by one;
on reaching the ring depth, wrap to 0 and flip the phase bit. -/
def apple_nvme_update_cq_head (q : CQueue) : CQueue :=
  let tmp := q.cq_head + 1
  if tmp = q.q_depth then
    { q with cq_head := 0, cq_phase := q.cq_phase ^^^ 1 }
  else
    { q with cq_head := tmp }

/-- `nvme_process_cq`: drain fresh completion entries.  Each consumed
entry is recorded as (index, status word, queue phase at consumption
time); the handling of each entry (`apple_nvme_handle_cqe`) operates on
the tracking table and requests and does not affect the loop.  `fuel`
bounds the iteration count (the C loop is bounded by the producer). -/
def nvme_process_cq : Nat → CQueue → CQueue × List (Nat × Nat × Nat)
  | 0, q => (q, [])
  | Nat.succ fuel, q =>
    if apple_nvme_cqe_pending q then
      let rest := nvme_process_cq fuel (apple_nvme_update_cq_head q)
      (rest.1, (q.cq_head, q.cqes q.cq_head, q.cq_phase) :: rest.2)
    else
      (q, [])

theorem update_cq_head_iterate_lt (q : CQueue) (hh : q.cq_head = 0)
    (k : Nat) (hk : k < q.q_depth) :
    (apple_nvme_update_cq_head^[k] q).cq_head = k ∧
    (apple_nvme_update_cq_head^[k] q).cq_phase = q.cq_phase ∧
    (apple_nvme_update_cq_head^[k] q).q_depth = q.q_depth := by
  induction k with
  | zero => simp [hh]
  | succ n ih =>
    have hn : n < q.q_depth := Nat.lt_of_succ_lt hk
    obtain ⟨h1, h2, h3⟩ := ih hn
    rw [Function.iterate_succ_apply']
    have hne : n + 1 ≠ q.q_depth := Nat.ne_of_lt hk
    simp [apple_nvme_update_cq_head, h1, h2, h3, hne]

theorem consumed_entries_match_phase (fuel : Nat) (q : CQueue) :
    ∀ e ∈ (nvme_process_cq fuel q).2, e.2.1 % 2 = e.2.2 := by
  induction fuel generalizing q with
  | zero => simp [nvme_process_cq]
  | succ n ih =>
    intro e he
    by_cases hp : apple_nvme_cqe_pending q
    · simp only [nvme_process_cq, hp, if_pos, List.mem_cons] at he
      rcases he with he | he
      · subst he
        simpa [apple_nvme_cqe_pending] using hp
      · exact ih _ e he
    · simp [nvme_process_cq, hp] at he

/-- C5: on a completion ring of depth D (D > 0), advancing the head D
times from head 0 passes through heads 0,1,…,D−1 without touching the
phase bit, and the D-th advance returns the head to 0 and flips the
phase exactly once; moreover the reaper only ever consumes entries whose
status low bit equals the queue phase current at consumption time. -/
theorem cq_head_lap_flips_phase_once_and_reaper_phase_safe
    (q : CQueue) (hh : q.cq_head = 0) (hd : 0 < q.q_depth) :
    (∀ k < q.q_depth,
      (apple_nvme_update_cq_head^[k] q).cq_head = k ∧
      (apple_nvme_update_cq_head^[k] q).cq_phase = q.cq_phase) ∧
    (apple_nvme_update_cq_head^[q.q_depth] q).cq_head = 0 ∧
    (apple_nvme_update_cq_head^[q.q_depth] q).cq_phase = q.cq_phase ^^^ 1 ∧
    (∀ fuel, ∀ e ∈ (nvme_process_cq fuel q).2, e.2.1 % 2 = e.2.2) := by
  refine ⟨fun k hk => ⟨(update_cq_head_iterate_lt q hh k hk).1,
      (update_cq_head_iterate_lt q hh k hk).2.1⟩, ?_, ?_,
      fun fuel => consumed_entries_match_phase fuel q⟩
  all_goals
    have hlast := update_cq_head_iterate_lt q hh (q.q_depth - 1)
      (Nat.sub_lt hd Nat.one_pos)
    obtain ⟨h1, h2, h3⟩ := hlast
    have hiter : apple_nvme_update_cq_head^[q.q_depth] q =
        apple_nvme_update_cq_head (apple_nvme_update_cq_head^[q.q_depth - 1] q) := by
      conv_lhs => rw [show q.q_depth = (q.q_depth - 1) + 1 from
        (Nat.succ_pred_eq_of_pos hd).symm]
      rw [Function.iterate_succ_apply']
    rw [hiter]
    have hcond : q.q_depth - 1 + 1 = q.q_depth := Nat.succ_pred_eq_of_pos hd
    simp only [apple_nvme_update_cq_head, h1, h2, h3, hcond, if_pos]

/-- A concrete one-lap scenario: depth 4, all entries fresh for phase 1. -/
def sampleCQueue : CQueue :=
  { q_depth := 4, cq_head := 0, cq_phase := 1, cqes := fun _ => 1 }

/-- Witness for C5 at the concrete queue `sampleCQueue`. -/
theorem cq_head_lap_witness :
    (∀ k < sampleCQueue.q_depth,
      (apple_nvme_update_cq_head^[k] sampleCQueue).cq_head = k ∧
      (apple_nvme_update_cq_head^[k] sampleCQueue).cq_phase =
        sampleCQueue.cq_phase) ∧
    (apple_nvme_update_cq_head^[sampleCQueue.q_depth] sampleCQueue).cq_head = 0 ∧
    (apple_nvme_update_cq_head^[sampleCQueue.q_depth] sampleCQueue).cq_phase =
      sampleCQueue.cq_phase ^^^ 1 ∧
    (∀ fuel, ∀ e ∈ (nvme_process_cq fuel sampleCQueue).2, e.2.1 % 2 = e.2.2) :=
  cq_head_lap_flips_phase_once_and_reaper_phase_safe sampleCQueue rfl
    (by decide)

/-! ## Submission entry point: `apple_nvme_queue_rq` -/

/-- Modelled from the spec: the external helper
`nvme_fail_nonready_command` (nvme core, not in this repository)
translates a not-yet-ready controller into the "retry when ready"
signal, i.e. a device-resource (not-ready) status. -/
def nvme_fail_nonready_command : BlkStatus := BlkStatus.devResource

/-- The inputs `apple_nvme_queue_rq` branches on: the queue's
`NVMEQ_ENABLED` flag, the result of the external controller-readiness
check `nvme_check_ready`, and the statuses produced by the external
command setup (`nvme_setup_cmd`) and by the data/metadata mapping
stages. -/
structure QueueRqIn where
  enabled : Bool
  checkReady : Bool
  setupStatus : BlkStatus
  hasSegments : Bool
  mapDataStatus : BlkStatus
  hasIntegrity : Bool
  mapMetaStatus : BlkStatus

/-- `apple_nvme_queue_rq`: the dispatch entry point.  Returns the
status handed back to the block layer together with whether the command
was actually submitted to hardware (`apple_nvme_submit_cmd` reached). -/
def apple_nvme_queue_rq (s : QueueRqIn) : BlkStatus × Bool :=
  if s.enabled = false then (BlkStatus.ioerr, false)
  else if s.checkReady = false then (nvme_fail_nonready_command, false)
  else if s.setupStatus ≠ BlkStatus.ok then (s.setupStatus, false)
  else if s.hasSegments ∧ s.mapDataStatus ≠ BlkStatus.ok then
    (s.mapDataStatus, false)
  else if s.hasIntegrity ∧ s.mapMetaStatus ≠ BlkStatus.ok then
    (s.mapMetaStatus, false)
  else (BlkStatus.ok, true)

/-- A concrete submission attempt against a disabled queue (everything
else healthy). -/
def disabledQueueRq : QueueRqIn :=
  { enabled := false, checkReady := true, setupStatus := .ok
    hasSegments := true, mapDataStatus := .ok
    hasIntegrity := false, mapMetaStatus := .ok }

/-- C1, counterexample: a request submitted to a queue whose enabled
flag is cleared is rejected with the hard I/O error `BLK_STS_IOERR`,
which is neither of the retry-later (not-ready) statuses — refuting the
claim that the rejection uses a not-ready error. -/
theorem queue_rq_disabled_counterexample :
    apple_nvme_queue_rq disabledQueueRq = (BlkStatus.ioerr, false) ∧
    BlkStatus.ioerr ≠ BlkStatus.devResource ∧
    BlkStatus.ioerr ≠ BlkStatus.resource := by
  refine ⟨rfl, by decide, by decide⟩

/-- C1 (amended): for every request submitted to a queue whose enabled
flag is cleared, the submission operation rejects the request with the
hard I/O error `BLK_STS_IOERR`, leaving the request unsubmitted; the
not-ready (retry-later) status is produced only by the later
controller-readiness check, not by the queue-enabled guard. -/
theorem queue_rq_disabled_rejects_ioerr (s : QueueRqIn)
    (h : s.enabled = false) :
    apple_nvme_queue_rq s = (BlkStatus.ioerr, false) := by
  simp [apple_nvme_queue_rq, h]

/-- Witness for C1 (amended) at the concrete disabled-queue input. -/
theorem queue_rq_disabled_rejects_ioerr_witness :
    apple_nvme_queue_rq disabledQueueRq = (BlkStatus.ioerr, false) :=
  queue_rq_disabled_rejects_ioerr disabledQueueRq rfl

/-! ## Timeout & recovery: `apple_nvme_timeout` and `apple_abort_endio` -/

/-- The controller lifecycle states distinguished by
`apple_nvme_timeout` (values of `dev->ctrl.state`). -/
inductive CtrlState where
  | live
  | resetting
  | connecting
  | deleting
  | dead
  deriving DecidableEq, Repr

/-- `blk_eh_timer_return`. -/
inductive EhRet where
  | done
  | resetTimer
  deriving DecidableEq, Repr

/-- `apple_nvme_should_reset`: no reset while one is already ongoing
(resetting/connecting); otherwise reset exactly when the controller
status register reports a fatal condition (`NVME_CSTS_CFS`). -/
def apple_nvme_should_reset (state : CtrlState) (cstsCfs : Bool) : Bool :=
  match state with
  | .resetting => false
  | .connecting => false
  | _ => cstsCfs

/-- The inputs `apple_nvme_timeout` branches on: the CFS bit of the
status register read, the controller state, whether the forced
completion-queue drain found the request already completed, the queue
role, whether this request was already aborted once
(`iod->aborted`), the current value of the shared atomic abort budget
(`dev->ctrl.abort_limit`), and whether allocating the abort request
(`nvme_alloc_request`, external) succeeds. -/
structure TimeoutIn where
  cstsCfs : Bool
  state : CtrlState
  completedByPoll : Bool
  is_adminq : Bool
  aborted : Bool
  abortLimit : Int
  abortAllocOk : Bool

/-- The observable outcome of one run of `apple_nvme_timeout`. -/
structure TimeoutOut where
  ret : EhRet
  disabled : Bool
  disableShutdownArg : Bool
  resetScheduled : Bool
  reqCancelledFlag : Bool
  abortIssued : Bool
  abortLimit : Int
  aborted : Bool
  state : CtrlState
  deriving DecidableEq, Repr

/-- `apple_nvme_timeout`: the per-request timeout handler. -/
def apple_nvme_timeout (s : TimeoutIn) : TimeoutOut :=
  let noop : TimeoutOut :=
    { ret := .done, disabled := false, disableShutdownArg := false
      resetScheduled := false, reqCancelledFlag := false
      abortIssued := false, abortLimit := s.abortLimit
      aborted := s.aborted, state := s.state }
  if apple_nvme_should_reset s.state s.cstsCfs then
    { noop with disabled := true, resetScheduled := true }
  else if s.completedByPoll then
    noop
  else
    match s.state with
    | .connecting =>
      { noop with
        state := .deleting, reqCancelledFlag := true,
        disabled := true, disableShutdownArg := true }
    | .deleting =>
      { noop with
        reqCancelledFlag := true,
        disabled := true, disableShutdownArg := true }
    | .resetting =>
      { noop with ret := .resetTimer }
    | _ =>
      if s.is_adminq ∨ s.aborted then
        { noop with
          reqCancelledFlag := true, disabled := true,
          resetScheduled := true }
      else if s.abortLimit - 1 < 0 then
        { noop with ret := .resetTimer, abortLimit := s.abortLimit - 1 + 1 }
      else if ¬ s.abortAllocOk then
        { noop with
          ret := .resetTimer, aborted := true,
          abortLimit := s.abortLimit - 1 + 1 }
      else
        { noop with
          ret := .resetTimer, aborted := true,
          abortIssued := true, abortLimit := s.abortLimit - 1 }

/-- `apple_abort_endio`: the completion callback of an issued abort
command returns its budget slot (`atomic_inc(&ctrl->abort_limit)`). -/
def apple_abort_endio (abortLimit : Int) : Int := abortLimit + 1

/-- C6: whenever the fatal-condition, polled-completion and
lifecycle-state checks do not apply, a timeout of an admin-queue
request, or of a request already aborted once before, disables the
device (without shutdown), schedules a controller reset and terminates
the timeout as handled, issuing zero abort attempts and leaving the
abort budget untouched. -/
theorem timeout_admin_or_aborted_resets (s : TimeoutIn)
    (hr : apple_nvme_should_reset s.state s.cstsCfs = false)
    (hc : s.completedByPoll = false)
    (hs : s.state = CtrlState.live ∨ s.state = CtrlState.dead)
    (ha : s.is_adminq = true ∨ s.aborted = true) :
    (apple_nvme_timeout s).disabled = true ∧
    (apple_nvme_timeout s).disableShutdownArg = false ∧
    (apple_nvme_timeout s).resetScheduled = true ∧
    (apple_nvme_timeout s).ret = EhRet.done ∧
    (apple_nvme_timeout s).abortIssued = false ∧
    (apple_nvme_timeout s).abortLimit = s.abortLimit := by
  rcases hs with h | h <;>
  · rw [h] at hr
    simp only [apple_nvme_should_reset] at hr
    simp [apple_nvme_timeout, apple_nvme_should_reset, h, hr, hc, ha]

/-- A concrete timeout scenario: admin-queue request, live healthy
controller, not completed by the forced drain, never aborted. -/
def adminTimeoutIn : TimeoutIn :=
  { cstsCfs := false, state := .live, completedByPoll := false
    is_adminq := true, aborted := false, abortLimit := 4
    abortAllocOk := true }

/-- Witness for C6: first timeout of an admin-queue request on a live,
healthy controller. -/
theorem timeout_admin_or_aborted_resets_witness :
    (apple_nvme_timeout adminTimeoutIn).disabled = true ∧
    (apple_nvme_timeout adminTimeoutIn).disableShutdownArg = false ∧
    (apple_nvme_timeout adminTimeoutIn).resetScheduled = true ∧
    (apple_nvme_timeout adminTimeoutIn).ret = EhRet.done ∧
    (apple_nvme_timeout adminTimeoutIn).abortIssued = false ∧
    (apple_nvme_timeout adminTimeoutIn).abortLimit = adminTimeoutIn.abortLimit :=
  timeout_admin_or_aborted_resets adminTimeoutIn rfl rfl (Or.inl rfl)
    (Or.inl rfl)

/-- C7: on the first timeout of a not-yet-aborted I/O-queue request
while the controller is live and healthy and the request was not found
completed by the forced drain: if the abort budget is exhausted
(decrement would go negative) the handler only re-arms the timer,
restoring the counter and issuing nothing; if a slot is available and
the abort request allocates, it marks the request aborted, issues the
asynchronous hardware abort and re-arms the timer — in both cases
without disabling the device. -/
theorem timeout_first_io_timeout_aborts (s : TimeoutIn)
    (hr : apple_nvme_should_reset s.state s.cstsCfs = false)
    (hc : s.completedByPoll = false)
    (hs : s.state = CtrlState.live)
    (hq : s.is_adminq = false)
    (hab : s.aborted = false) :
    (s.abortLimit ≤ 0 →
      (apple_nvme_timeout s).ret = EhRet.resetTimer ∧
      (apple_nvme_timeout s).disabled = false ∧
      (apple_nvme_timeout s).abortIssued = false ∧
      (apple_nvme_timeout s).abortLimit = s.abortLimit) ∧
    (0 < s.abortLimit → s.abortAllocOk = true →
      (apple_nvme_timeout s).aborted = true ∧
      (apple_nvme_timeout s).abortIssued = true ∧
      (apple_nvme_timeout s).ret = EhRet.resetTimer ∧
      (apple_nvme_timeout s).disabled = false ∧
      (apple_nvme_timeout s).abortLimit = s.abortLimit - 1) := by
  rw [hs] at hr
  simp only [apple_nvme_should_reset] at hr
  constructor
  · intro hle
    have hneg : s.abortLimit - 1 < 0 := by omega
    simp [apple_nvme_timeout, apple_nvme_should_reset, hr, hc, hs, hq, hab,
      hneg]
  · intro hpos hok
    have hneg : ¬ (s.abortLimit - 1 < 0) := by omega
    simp [apple_nvme_timeout, apple_nvme_should_reset, hr, hc, hs, hq, hab,
      hneg, hok]

/-- A concrete timeout scenario: I/O-queue request, live healthy
controller, first timeout, one abort-budget slot free, abort request
allocation succeeding. -/
def ioTimeoutIn : TimeoutIn :=
  { cstsCfs := false, state := .live, completedByPoll := false
    is_adminq := false, aborted := false, abortLimit := 1
    abortAllocOk := true }

/-- Witness for C7 at the concrete scenario `ioTimeoutIn`. -/
theorem timeout_first_io_timeout_aborts_witness :
    (ioTimeoutIn.abortLimit ≤ 0 →
      (apple_nvme_timeout ioTimeoutIn).ret = EhRet.resetTimer ∧
      (apple_nvme_timeout ioTimeoutIn).disabled = false ∧
      (apple_nvme_timeout ioTimeoutIn).abortIssued = false ∧
      (apple_nvme_timeout ioTimeoutIn).abortLimit = ioTimeoutIn.abortLimit) ∧
    (0 < ioTimeoutIn.abortLimit → ioTimeoutIn.abortAllocOk = true →
      (apple_nvme_timeout ioTimeoutIn).aborted = true ∧
      (apple_nvme_timeout ioTimeoutIn).abortIssued = true ∧
      (apple_nvme_timeout ioTimeoutIn).ret = EhRet.resetTimer ∧
      (apple_nvme_timeout ioTimeoutIn).disabled = false ∧
      (apple_nvme_timeout ioTimeoutIn).abortLimit =
        ioTimeoutIn.abortLimit - 1) :=
  timeout_first_io_timeout_aborts ioTimeoutIn rfl rfl rfl rfl rfl

/-- C9: the timeout path never leaks the abort budget — on every run of
the handler, if no abort command was issued the counter is unchanged
(any decrement was matched by an immediate increment), and if an abort
was issued the counter is down by exactly one and the abort's completion
callback restores it exactly. -/
theorem timeout_abort_budget_conserved (s : TimeoutIn) :
    ((apple_nvme_timeout s).abortIssued = false →
      (apple_nvme_timeout s).abortLimit = s.abortLimit) ∧
    ((apple_nvme_timeout s).abortIssued = true →
      (apple_nvme_timeout s).abortLimit = s.abortLimit - 1 ∧
      apple_abort_endio (apple_nvme_timeout s).abortLimit = s.abortLimit) := by
  simp only [apple_nvme_timeout]
  split
  · exact ⟨fun _ => rfl, fun h => by simp at h⟩
  · split
    · exact ⟨fun _ => rfl, fun h => by simp at h⟩
    · split
      · exact ⟨fun _ => rfl, fun h => by simp at h⟩
      · exact ⟨fun _ => rfl, fun h => by simp at h⟩
      · exact ⟨fun _ => rfl, fun h => by simp at h⟩
      · split
        · exact ⟨fun _ => rfl, fun h => by simp at h⟩
        · split
          · refine ⟨fun _ => ?_, fun h => by simp at h⟩
            simp only
            omega
          · split
            · refine ⟨fun _ => ?_, fun h => by simp at h⟩
              simp only
              omega
            · refine ⟨fun h => by simp at h, fun _ => ⟨rfl, ?_⟩⟩
              simp only [apple_abort_endio]
              omega

/-- Witness for C9 at the concrete scenario of a first I/O-queue
timeout with one budget slot free: the abort is issued, the counter
drops by one and the completion callback restores it. -/
theorem timeout_abort_budget_conserved_witness :
    ((apple_nvme_timeout
        { cstsCfs := false, state := .live, completedByPoll := false
          is_adminq := false, aborted := false, abortLimit := 3
          abortAllocOk := true }).abortIssued = false →
      (apple_nvme_timeout
        { cstsCfs := false, state := .live, completedByPoll := false
          is_adminq := false, aborted := false, abortLimit := 3
          abortAllocOk := true }).abortLimit = 3) ∧
    ((apple_nvme_timeout
        { cstsCfs := false, state := .live, completedByPoll := false
          is_adminq := false, aborted := false, abortLimit := 3
          abortAllocOk := true }).abortIssued = true →
      (apple_nvme_timeout
        { cstsCfs := false, state := .live, completedByPoll := false
          is_adminq := false, aborted := false, abortLimit := 3
          abortAllocOk := true }).abortLimit = 3 - 1 ∧
      apple_abort_endio (apple_nvme_timeout
        { cstsCfs := false, state := .live, completedByPoll := false
          is_adminq := false, aborted := false, abortLimit := 3
          abortAllocOk := true }).abortLimit = 3) :=
  timeout_abort_budget_conserved
    { cstsCfs := false, state := .live, completedByPoll := false
      is_adminq := false, aborted := false, abortLimit := 3
      abortAllocOk := true }

/-! ## The PRP descriptor-chain builder: `apple_nvme_setup_prps` -/

/-- One DMA-mapped scatter/gather fragment: bus address
(`sg_dma_address`) and length (`sg_dma_len`). -/
structure Frag where
  addr : Nat
  len : Nat
  deriving DecidableEq, Repr

/-- The two PRP pointer fields of `struct nvme_rw_command` written by
the builders. -/
structure RwCmd where
  prp1 : Nat
  prp2 : Nat
  deriving DecidableEq, Repr

/-- The mutable state of the `for (;;)` loop in
`apple_nvme_setup_prps`: the C variables `length`, `dma_addr`,
`dma_len`, the not-yet-visited scatterlist tail, the slot index `i`
into the current PRP page, the current PRP page contents, the chained
(completed) PRP pages in order, the number of pool allocations
performed so far, and `iod->npages`. -/
structure PrpLoopState where
  length : Int
  dma_addr : Nat
  dma_len : Int
  sgs : List Frag
  i : Nat
  cur : List Nat
  donePages : List (List Nat)
  allocIdx : Nat
  npages : Int
  deriving Repr

/-- Outcome of the PRP loop: normal loop exit, pool exhaustion
(`goto free_prps`), a malformed scatterlist (`goto bad_sgl`),
`sg_next` past the end of the scatterlist (undefined behaviour in C,
unreachable for well-formed inputs), or fuel exhaustion (unreachable
for sufficient fuel). -/
inductive PrpLoopOut where
  | finished (st : PrpLoopState)
  | resource
  | badSgl
  | noNextSg
  | fuelOut
  deriving Repr

/-- The chaining step at the top of the loop body of
`apple_nvme_setup_prps`: when the current PRP page is full
(`i == NVME_CTRL_PAGE_SIZE >> 3`), allocate a fresh pool page, move the
full page's last slot entry to slot 0 of the new page, and overwrite
that last slot with the new page's bus address.  `none` models
`dma_pool_alloc` failure (`goto free_prps`). -/
def prp_chain_step (palloc : Nat → Option Nat) (st0 : PrpLoopState) :
    Option PrpLoopState :=
  if st0.i = ctrlPageSize / 8 then
    match palloc st0.allocIdx with
    | none => none
    | some prp_dma => some { st0 with
        donePages := st0.donePages ++ [st0.cur.dropLast ++ [prp_dma]],
        cur := [st0.cur.getLastD 0],
        i := 1,
        allocIdx := st0.allocIdx + 1,
        npages := st0.npages + 1 }
  else some st0

/-- One emission step of the loop body:
`prp_list[i++] = cpu_to_le64(dma_addr)` followed by the three
decrements/increments of `dma_len`, `dma_addr` and `length`. -/
def prp_emit (st : PrpLoopState) : PrpLoopState :=
  { st with
    cur := st.cur ++ [st.dma_addr],
    i := st.i + 1,
    dma_len := st.dma_len - (ctrlPageSize : Int),
    dma_addr := st.dma_addr + ctrlPageSize,
    length := st.length - (ctrlPageSize : Int) }

/-- The `for (;;)` loop of `apple_nvme_setup_prps`.  `palloc` models
the DMA pools: the k-th `dma_pool_alloc` call returns the page with bus
address `palloc k` (`none` = allocation failure). -/
def prp_loop (palloc : Nat → Option Nat) : Nat → PrpLoopState → PrpLoopOut
  | 0, _ => .fuelOut
  | Nat.succ fuel, st0 =>
    match prp_chain_step palloc st0 with
    | none => .resource
    | some st =>
      let st1 := prp_emit st
      if st1.length ≤ 0 then .finished st1
      else if 0 < st1.dma_len then prp_loop palloc fuel st1
      else if st1.dma_len < 0 then .badSgl
      else
        match st1.sgs with
        | [] => .noNextSg
        | f :: rest => prp_loop palloc fuel { st1 with
            dma_addr := f.addr, dma_len := (f.len : Int), sgs := rest }

/-- Result of `apple_nvme_setup_prps`: the returned status, the
command's pointer pair, `iod->first_dma`, `iod->npages`, and the PRP
pages in allocation order (completed chained pages followed by the page
still being filled). -/
structure PrpsOut where
  status : BlkStatus
  cmnd : RwCmd
  first_dma : Nat
  npages : Int
  pages : List (List Nat)
  deriving Repr

/-- The tail of `apple_nvme_setup_prps` after the first-page
adjustment: `adls` carries the adjusted (`dma_addr`, `dma_len`,
remaining scatterlist).  If at most one controller page remains after
the first pointer, prp2 points directly at it; otherwise pick a pool by
`nprps`, allocate the first pointer page and run the fill loop. -/
def setup_prps_cont (palloc : Nat → Option Nat) (sg0 : Frag)
    (payload : Nat) (cmnd : RwCmd) (npages0 : Int)
    (adls : Nat × Int × List Frag) : Option PrpsOut :=
  let dma_addr := adls.1
  let dma_len := adls.2.1
  let sgs := adls.2.2
  let length : Int :=
    (payload : Int) - ((ctrlPageSize - sg0.addr % ctrlPageSize : Nat) : Int)
  if length ≤ (ctrlPageSize : Int) then
    some { status := .ok, cmnd := { prp1 := sg0.addr, prp2 := dma_addr },
           first_dma := dma_addr, npages := npages0, pages := [] }
  else
    let nprps := (length + (ctrlPageSize : Int) - 1) / (ctrlPageSize : Int)
    let npages : Int := if nprps ≤ 256 / 8 then 0 else 1
    match palloc 0 with
    | none =>
      some { status := .resource, cmnd := cmnd, first_dma := dma_addr,
             npages := -1, pages := [] }
    | some prp_dma =>
      let st : PrpLoopState :=
        { length := length, dma_addr := dma_addr, dma_len := dma_len,
          sgs := sgs, i := 0, cur := [], donePages := [],
          allocIdx := 1, npages := npages }
      match prp_loop palloc payload st with
      | .finished st' =>
        some { status := .ok,
               cmnd := { prp1 := sg0.addr, prp2 := prp_dma },
               first_dma := prp_dma, npages := st'.npages,
               pages := st'.donePages ++ [st'.cur] }
      | .resource =>
        some { status := .resource, cmnd := cmnd, first_dma := prp_dma,
               npages := st.npages, pages := [] }
      | .badSgl =>
        some { status := .ioerr, cmnd := cmnd, first_dma := prp_dma,
               npages := st.npages, pages := [] }
      | .noNextSg => none
      | .fuelOut => none

/-- `apple_nvme_setup_prps`: build the PRP representation of a payload
of `payload` bytes spread over the fragments `sg0 :: sgs`.  `cmnd` is
the incoming command (its pointer fields are left unchanged on the
error paths), `npages0` the incoming `iod->npages`.  Returns `none`
when the C code would dereference past the end of the scatterlist
(undefined behaviour) or the fuel bound is hit. -/
def apple_nvme_setup_prps (palloc : Nat → Option Nat) (sg0 : Frag)
    (sgs : List Frag) (payload : Nat) (cmnd : RwCmd) (npages0 : Int) :
    Option PrpsOut :=
  let dma_len : Int := (sg0.len : Int)
  let dma_addr := sg0.addr
  let offset := dma_addr % ctrlPageSize
  let length : Int := (payload : Int) - ((ctrlPageSize - offset : Nat) : Int)
  if length ≤ 0 then
    some { status := .ok, cmnd := { prp1 := sg0.addr, prp2 := 0 },
           first_dma := 0, npages := npages0, pages := [] }
  else
    let dma_len := dma_len - ((ctrlPageSize - offset : Nat) : Int)
    let step2 : Option (Nat × Int × List Frag) :=
      if dma_len ≠ 0 then
        some (dma_addr + (ctrlPageSize - offset), dma_len, sgs)
      else
        match sgs with
        | [] => none
        | f :: rest => some (f.addr, (f.len : Int), rest)
    match step2 with
    | none => none
    | some adls => setup_prps_cont palloc sg0 payload cmnd npages0 adls

/-! ### Specification-side functions for the round-trip property -/

/-- The page-aligned addresses covering `l` bytes starting at the
page-aligned address `a`: `a, a+4096, …` (`⌈l / 4096⌉` of them). -/
def pagesOf (a : Nat) (l : Int) : List Nat :=
  if h : l ≤ 0 then [] else a :: pagesOf (a + ctrlPageSize) (l - 4096)
termination_by l.toNat
decreasing_by
  simp only [not_le] at h
  omega

/-- Walk a PRP chain: every completed page contributes all slots but
its last (the link to the next page); the final page contributes all
its slots. -/
def chainWalk : List (List Nat) → List Nat
  | [] => []
  | [p] => p
  | p :: ps => p.dropLast ++ chainWalk ps

/-- The entries a walk accumulates from a loop state: data slots of the
completed pages plus the current page. -/
def walkAcc (st : PrpLoopState) : List Nat :=
  (st.donePages.map List.dropLast).flatten ++ st.cur

/-- The bytes covered by a list of PRP entries against `r` remaining
bytes: each entry covers a full controller page except the last, which
covers what remains. -/
def coverOf : List Nat → Int → Int
  | [], _ => 0
  | _ :: t, r => min (ctrlPageSize : Int) r + coverOf t (r - (ctrlPageSize : Int))

/-- The chain-link integrity of the completed pages: the page completed
k-th holds exactly `ctrlPageSize / 8` slots and its last slot is the
bus address returned by the (k+1)-st pool allocation. -/
def chainLinked (palloc : Nat → Option Nat) : Nat → List (List Nat) → Prop
  | _, [] => True
  | k, p :: ps =>
    p.length = ctrlPageSize / 8 ∧ palloc k = some (p.getLastD 0) ∧
    chainLinked palloc (k + 1) ps

/-- Well-formedness of a DMA-mapped scatterlist tail: every fragment
starts on a controller-page boundary, has positive length, and all but
the last end on a page boundary. -/
def fragsAligned : List Frag → Prop
  | [] => True
  | [f] => f.addr % ctrlPageSize = 0 ∧ 0 < f.len
  | f :: rest =>
    f.addr % ctrlPageSize = 0 ∧ 0 < f.len ∧ f.len % ctrlPageSize = 0 ∧
    fragsAligned rest

/-- Well-formedness of a whole mapped request: positive first fragment,
the payload equals the total mapped bytes, and if more fragments
follow, the first fragment ends on a page boundary and the tail is
aligned. -/
def sglOk (sg0 : Frag) (sgs : List Frag) (payload : Nat) : Prop :=
  0 < sg0.len ∧
  payload = sg0.len + (sgs.map Frag.len).sum ∧
  (sgs = [] ∨ ((sg0.addr + sg0.len) % ctrlPageSize = 0 ∧ fragsAligned sgs))

/-- The page addresses the loop is expected to emit from a given
position: the pages of the bytes left in the current fragment followed
by the pages of every remaining fragment. -/
def expectedTail (a : Nat) (dl : Int) (sgs : List Frag) : List Nat :=
  pagesOf a dl ++ (sgs.map fun f => pagesOf f.addr (f.len : Int)).flatten

theorem pagesOf_nonpos (a : Nat) (l : Int) (h : l ≤ 0) : pagesOf a l = [] := by
  rw [pagesOf]
  simp [h]

theorem pagesOf_pos (a : Nat) (l : Int) (h : 0 < l) :
    pagesOf a l = a :: pagesOf (a + ctrlPageSize) (l - 4096) := by
  rw [pagesOf]
  simp [not_le.mpr h]

theorem chainWalk_concat (ds : List (List Nat)) (c : List Nat) :
    chainWalk (ds ++ [c]) = (ds.map List.dropLast).flatten ++ c := by
  induction ds with
  | nil => simp [chainWalk]
  | cons d ds ih =>
    cases ds with
    | nil => simp [chainWalk]
    | cons e es =>
      simp only [List.cons_append]
      show d.dropLast ++ chainWalk (e :: (es ++ [c])) = _
      rw [show e :: (es ++ [c]) = e :: es ++ [c] from rfl, ih]
      simp [List.append_assoc]

theorem chainLinked_concat (palloc : Nat → Option Nat) (k : Nat)
    (ps : List (List Nat)) (p : List Nat) :
    chainLinked palloc k (ps ++ [p]) ↔
      chainLinked palloc k ps ∧ p.length = ctrlPageSize / 8 ∧
      palloc (k + ps.length) = some (p.getLastD 0) := by
  induction ps generalizing k with
  | nil => simp [chainLinked]
  | cons q qs ih =>
    simp only [List.cons_append, chainLinked, List.append_eq, ih,
      List.length_cons]
    constructor
    · rintro ⟨h1, h2, h3, h4, h5⟩
      refine ⟨⟨h1, h2, h3⟩, h4, ?_⟩
      convert h5 using 2
      omega
    · rintro ⟨⟨h1, h2, h3⟩, h4, h5⟩
      refine ⟨h1, h2, h3, h4, ?_⟩
      convert h5 using 2
      omega

theorem dropLast_append_getLastD (l : List Nat) (h : l ≠ []) (d : Nat) :
    l.dropLast ++ [l.getLastD d] = l := by
  rw [List.getLastD_eq_getLast?, List.getLast?_eq_getLast _ h]
  simp [List.dropLast_append_getLast h]

theorem fragsAligned_cons (f : Frag) (rest : List Frag)
    (h : fragsAligned (f :: rest)) :
    f.addr % ctrlPageSize = 0 ∧ 0 < f.len ∧
    (rest = [] ∨ (f.len % ctrlPageSize = 0 ∧ fragsAligned rest)) := by
  cases rest with
  | nil =>
    simp only [fragsAligned] at h
    exact ⟨h.1, h.2, Or.inl rfl⟩
  | cons g gs =>
    simp only [fragsAligned] at h
    exact ⟨h.1, h.2.1, Or.inr ⟨h.2.2.1, h.2.2.2⟩⟩

theorem prp_chain_step_spec (palloc : Nat → Option Nat)
    (hpal : ∀ k, (palloc k).isSome) (st0 : PrpLoopState)
    (hi : st0.i = st0.cur.length)
    (hidx : st0.allocIdx = st0.donePages.length + 1)
    (hlink : chainLinked palloc 1 st0.donePages) :
    ∃ st, prp_chain_step palloc st0 = some st ∧
      st.length = st0.length ∧ st.dma_addr = st0.dma_addr ∧
      st.dma_len = st0.dma_len ∧ st.sgs = st0.sgs ∧
      walkAcc st = walkAcc st0 ∧ st.i = st.cur.length ∧
      st.allocIdx = st.donePages.length + 1 ∧
      chainLinked palloc 1 st.donePages := by
  by_cases hfull : st0.i = ctrlPageSize / 8
  · obtain ⟨pd, hpd⟩ := Option.isSome_iff_exists.mp (hpal st0.allocIdx)
    have hcurlen : st0.cur.length = ctrlPageSize / 8 := by rw [← hi, hfull]
    have hcurne : st0.cur ≠ [] := by
      intro hc
      rw [hc] at hcurlen
      simp [ctrlPageSize] at hcurlen
    refine ⟨{ st0 with
        donePages := st0.donePages ++ [st0.cur.dropLast ++ [pd]],
        cur := [st0.cur.getLastD 0], i := 1, allocIdx := st0.allocIdx + 1,
        npages := st0.npages + 1 }, ?_, rfl, rfl, rfl, rfl, ?_, ?_, ?_, ?_⟩
    · simp only [prp_chain_step, if_pos hfull, hpd]
    · simp only [walkAcc, List.map_append, List.map_cons, List.map_nil,
        List.flatten_append, List.flatten_cons, List.flatten_nil,
        List.dropLast_concat, List.append_nil, List.append_assoc]
      rw [dropLast_append_getLastD st0.cur hcurne 0]
    · simp
    · simp only [List.length_append, List.length_cons, List.length_nil]
      omega
    · rw [chainLinked_concat]
      refine ⟨hlink, ?_, ?_⟩
      · simp only [List.length_append, List.length_dropLast, hcurlen,
          List.length_cons, List.length_nil]
        simp [ctrlPageSize]
      · have hgl : (st0.cur.dropLast ++ [pd]).getLastD 0 = pd := by simp
        rw [hgl]
        have hone : 1 + st0.donePages.length = st0.allocIdx := by omega
        rw [hone]
        exact hpd
  · exact ⟨st0, by simp [prp_chain_step, hfull], rfl, rfl, rfl, rfl, rfl, hi,
      hidx, hlink⟩

theorem prp_loop_correct (palloc : Nat → Option Nat)
    (hpal : ∀ k, (palloc k).isSome) (fuel : Nat) :
    ∀ st : PrpLoopState,
    st.length.toNat ≤ fuel →
    0 < st.length →
    0 < st.dma_len →
    st.length = st.dma_len + ((st.sgs.map Frag.len).sum : Int) →
    (st.sgs = [] ∨ (st.dma_len % (4096 : Int) = 0 ∧ fragsAligned st.sgs)) →
    st.i = st.cur.length →
    st.allocIdx = st.donePages.length + 1 →
    chainLinked palloc 1 st.donePages →
    ∃ st', prp_loop palloc fuel st = PrpLoopOut.finished st' ∧
      walkAcc st' = walkAcc st ++ expectedTail st.dma_addr st.dma_len st.sgs ∧
      coverOf (expectedTail st.dma_addr st.dma_len st.sgs) st.length =
        st.length ∧
      chainLinked palloc 1 st'.donePages := by
  induction fuel with
  | zero =>
    intro st hfuel hlen _ _ _ _ _ _
    exfalso
    omega
  | succ fuel ih =>
    intro st hfuel hlen hdl hcov hchain hi hidx hlink
    obtain ⟨stc, hstc, hc1, hc2, hc3, hc4, hcw, hci, hcidx, hclink⟩ :=
      prp_chain_step_spec palloc hpal st hi hidx hlink
    have hemit : walkAcc (prp_emit stc) = walkAcc st ++ [st.dma_addr] := by
      have hstep : walkAcc (prp_emit stc) = walkAcc stc ++ [stc.dma_addr] := by
        simp [walkAcc, prp_emit, List.append_assoc]
      rw [hstep, hcw, hc2]
    have hlen1 : (prp_emit stc).length = st.length - 4096 := by
      simp [prp_emit, hc1, ctrlPageSize]
    have hdl1 : (prp_emit stc).dma_len = st.dma_len - 4096 := by
      simp [prp_emit, hc3, ctrlPageSize]
    have haddr1 : (prp_emit stc).dma_addr = st.dma_addr + 4096 := by
      simp [prp_emit, hc2, ctrlPageSize]
    have hsgs1 : (prp_emit stc).sgs = st.sgs := by
      simp [prp_emit, hc4]
    have hi1 : (prp_emit stc).i = (prp_emit stc).cur.length := by
      simp [prp_emit, hci]
    have hidx1 : (prp_emit stc).allocIdx = (prp_emit stc).donePages.length + 1 := by
      simp [prp_emit, hcidx]
    have hlink1 : chainLinked palloc 1 (prp_emit stc).donePages := by
      simpa [prp_emit] using hclink
    have hloop : prp_loop palloc (fuel + 1) st =
        (if (prp_emit stc).length ≤ 0 then
          PrpLoopOut.finished (prp_emit stc)
        else if 0 < (prp_emit stc).dma_len then
          prp_loop palloc fuel (prp_emit stc)
        else if (prp_emit stc).dma_len < 0 then PrpLoopOut.badSgl
        else
          match (prp_emit stc).sgs with
          | [] => PrpLoopOut.noNextSg
          | f :: rest => prp_loop palloc fuel { prp_emit stc with
              dma_addr := f.addr, dma_len := (f.len : Int), sgs := rest }) := by
      rw [prp_loop, hstc]
    by_cases hstop : (prp_emit stc).length ≤ 0
    · -- loop exit: the final page entry has just been emitted
      have hsgsnil : st.sgs = [] := by
        rcases hchain with h | h
        · exact h
        · rcases hsg : st.sgs with _ | ⟨f, rest⟩
          · rfl
          · exfalso
            rw [hsg] at h hcov
            obtain ⟨hmod, hal⟩ := h
            obtain ⟨_, hflen, _⟩ := fragsAligned_cons f rest hal
            have hsum : (f.len : Int) ≤
                (((f :: rest).map Frag.len).sum : Int) := by
              have hn : f.len ≤ ((f :: rest).map Frag.len).sum := by
                simp only [List.map_cons, List.sum_cons]
                omega
              exact_mod_cast hn
            rw [hlen1] at hstop
            omega
      have hdleq : st.length = st.dma_len := by
        rw [hsgsnil] at hcov
        simpa using hcov
      have hexp : expectedTail st.dma_addr st.dma_len st.sgs =
          [st.dma_addr] := by
        rw [hsgsnil, expectedTail]
        rw [pagesOf_pos _ _ hdl, pagesOf_nonpos]
        · simp
        · rw [hlen1] at hstop
          omega
      refine ⟨prp_emit stc, ?_, ?_, ?_, hlink1⟩
      · rw [hloop, if_pos hstop]
      · rw [hemit, hexp]
      · rw [hexp]
        simp only [coverOf]
        rw [show ((ctrlPageSize : Int)) = 4096 from by simp [ctrlPageSize]]
        rw [hlen1] at hstop
        omega
    · push_neg at hstop
      rw [hlen1] at hstop
      have hexpcons : ∀ sgs2, expectedTail st.dma_addr st.dma_len sgs2 =
          st.dma_addr ::
            expectedTail (st.dma_addr + 4096) (st.dma_len - 4096) sgs2 := by
        intro sgs2
        rw [expectedTail, expectedTail, pagesOf_pos _ _ hdl]
        simp [ctrlPageSize]
      by_cases hcont : 0 < (prp_emit stc).dma_len
      · -- continue within the current fragment
        obtain ⟨st', hst', hw', hcov', hlink'⟩ := ih (prp_emit stc)
          (by rw [hlen1]; omega) (by rw [hlen1]; omega) hcont
          (by rw [hlen1, hdl1, hsgs1]; omega)
          (by
            rcases hchain with h | h
            · exact Or.inl (by rw [hsgs1, h])
            · refine Or.inr ⟨?_, by rw [hsgs1]; exact h.2⟩
              rw [hdl1]
              omega)
          hi1 hidx1 hlink1
        refine ⟨st', ?_, ?_, ?_, hlink'⟩
        · rw [hloop, if_neg (by rw [hlen1]; omega), if_pos hcont, hst']
        · rw [hw', hemit, hsgs1, haddr1, hdl1, hexpcons st.sgs]
          simp
        · rw [hexpcons st.sgs]
          simp only [coverOf]
          rw [haddr1, hdl1, hsgs1, hlen1] at hcov'
          rw [show ((ctrlPageSize : Int)) = 4096 from by simp [ctrlPageSize]]
          omega
      · by_cases hbad : (prp_emit stc).dma_len < 0
        · -- dma_len went negative: impossible for well-formed inputs
          exfalso
          rw [hdl1] at hbad
          rcases hchain with h | h
          · rw [h] at hcov
            simp at hcov
            omega
          · have hmod := h.1
            omega
        · -- current fragment exhausted exactly: advance the scatterlist
          have hdl0 : st.dma_len = 4096 := by
            rw [hdl1] at hcont hbad
            omega
          rcases hsg : st.sgs with _ | ⟨f, rest⟩
          · exfalso
            rw [hsg] at hcov
            simp at hcov
            omega
          · have hal : fragsAligned (f :: rest) := by
              rcases hchain with h | h
              · rw [hsg] at h
                simp at h
              · rw [← hsg]
                exact h.2
            obtain ⟨hfa, hflen, hrest⟩ := fragsAligned_cons f rest hal
            have hexpD : expectedTail st.dma_addr st.dma_len (f :: rest) =
                st.dma_addr :: expectedTail f.addr (f.len : Int) rest := by
              rw [expectedTail, expectedTail, pagesOf_pos _ _ hdl,
                pagesOf_nonpos (st.dma_addr + ctrlPageSize)
                  (st.dma_len - 4096) (by omega)]
              simp
            obtain ⟨st', hst', hw', hcov', hlink'⟩ := ih { prp_emit stc with
                dma_addr := f.addr, dma_len := (f.len : Int), sgs := rest }
              (by show (prp_emit stc).length.toNat ≤ fuel; rw [hlen1]; omega)
              (by show 0 < (prp_emit stc).length; rw [hlen1]; omega)
              (by show (0 : Int) < (f.len : Int); exact_mod_cast hflen)
              (by
                show (prp_emit stc).length =
                  (f.len : Int) + ((rest.map Frag.len).sum : Int)
                rw [hlen1]
                rw [hsg] at hcov
                simp only [List.map_cons, List.sum_cons] at hcov
                have hc2' : ((f.len + (rest.map Frag.len).sum : Nat) : Int) =
                    (f.len : Int) + ((rest.map Frag.len).sum : Int) := by
                  push_cast
                  ring
                rw [hc2'] at hcov
                omega)
              (by
                show rest = [] ∨
                  ((f.len : Int) % 4096 = 0 ∧ fragsAligned rest)
                rcases hrest with hr | hr
                · exact Or.inl hr
                · refine Or.inr ⟨?_, hr.2⟩
                  have := hr.1
                  simp only [ctrlPageSize] at this
                  omega)
              (by show (prp_emit stc).i = (prp_emit stc).cur.length
                  exact hi1)
              (by
                show (prp_emit stc).allocIdx =
                  (prp_emit stc).donePages.length + 1
                exact hidx1)
              (by
                show chainLinked palloc 1 (prp_emit stc).donePages
                exact hlink1)
            refine ⟨st', ?_, ?_, ?_, hlink'⟩
            · rw [hloop, if_neg (by rw [hlen1]; omega), if_neg hcont,
                if_neg hbad, hsgs1, hsg]
              exact hst'
            · rw [hw']
              rw [show walkAcc { prp_emit stc with
                  dma_addr := f.addr, dma_len := (f.len : Int),
                  sgs := rest } = walkAcc (prp_emit stc) from rfl, hemit,
                hexpD]
              simp
            · rw [hexpD]
              simp only [coverOf]
              rw [show ((ctrlPageSize : Int)) = 4096 from by
                simp [ctrlPageSize]]
              have hcov2 : coverOf (expectedTail f.addr (f.len : Int) rest)
                  (st.length - 4096) = st.length - 4096 := by
                have heq : ({ prp_emit stc with
                    dma_addr := f.addr
                    dma_len := (f.len : Int)
                    sgs := rest } :
                    PrpLoopState).length = st.length - 4096 := hlen1
                rw [heq] at hcov'
                exact hcov'
              omega

/-- `first_prp_len`: the bytes the first pointer covers, from the
buffer start to the end of its controller page. -/
def firstPrpLen (a : Nat) : Nat := ctrlPageSize - a % ctrlPageSize

theorem pagesOf_aligned (a : Nat) (l : Int) (ha : a % ctrlPageSize = 0) :
    ∀ p ∈ pagesOf a l, p % ctrlPageSize = 0 := by
  by_cases h : l ≤ 0
  · simp [pagesOf_nonpos _ _ h]
  · push_neg at h
    rw [pagesOf_pos _ _ h]
    intro p hp
    rcases List.mem_cons.mp hp with rfl | hp
    · exact ha
    · exact pagesOf_aligned (a + ctrlPageSize) (l - 4096)
        (by rw [Nat.add_mod_right]; exact ha) p hp
termination_by l.toNat
decreasing_by
  omega

theorem fragsAligned_mem (l : List Frag) (hl : fragsAligned l) :
    ∀ f ∈ l, f.addr % ctrlPageSize = 0 := by
  intro f hf
  induction l with
  | nil => simp at hf
  | cons g gs ih =>
    obtain ⟨hga, _, hrest⟩ := fragsAligned_cons g gs hl
    rcases List.mem_cons.mp hf with rfl | hf
    · exact hga
    · rcases hrest with rfl | ⟨_, hr⟩
      · simp at hf
      · exact ih hr hf

theorem expectedTail_aligned (a : Nat) (dl : Int) (sgs : List Frag)
    (ha : a % ctrlPageSize = 0) (hsgs : fragsAligned sgs ∨ sgs = []) :
    ∀ p ∈ expectedTail a dl sgs, p % ctrlPageSize = 0 := by
  intro p hp
  rw [expectedTail] at hp
  rcases List.mem_append.mp hp with hp | hp
  · exact pagesOf_aligned a dl ha p hp
  · rw [List.mem_flatten] at hp
    obtain ⟨piece, hpiece, hppiece⟩ := hp
    rw [List.mem_map] at hpiece
    obtain ⟨f, hf, rfl⟩ := hpiece
    rcases hsgs with hsgs | rfl
    · exact pagesOf_aligned f.addr (f.len : Int)
        (fragsAligned_mem sgs hsgs f hf) p hppiece
    · simp at hf

theorem prp_loop_from_start (palloc : Nat → Option Nat)
    (hpal : ∀ k, (palloc k).isSome) (payload : Nat)
    (L dl : Int) (A : Nat) (sgs2 : List Frag) (np : Int)
    (hfuel : L.toNat ≤ payload) (hL : 0 < L) (hdl : 0 < dl)
    (hcov : L = dl + ((sgs2.map Frag.len).sum : Int))
    (hchain : sgs2 = [] ∨ (dl % (4096 : Int) = 0 ∧ fragsAligned sgs2)) :
    ∃ st', prp_loop palloc payload
        { length := L, dma_addr := A, dma_len := dl, sgs := sgs2, i := 0,
          cur := [], donePages := [], allocIdx := 1, npages := np } =
        PrpLoopOut.finished st' ∧
      chainWalk (st'.donePages ++ [st'.cur]) = expectedTail A dl sgs2 ∧
      coverOf (expectedTail A dl sgs2) L = L ∧
      chainLinked palloc 1 st'.donePages := by
  obtain ⟨st', h1, h2, h3, h4⟩ := prp_loop_correct palloc hpal payload
    { length := L, dma_addr := A, dma_len := dl, sgs := sgs2, i := 0,
      cur := [], donePages := [], allocIdx := 1, npages := np }
    hfuel hL hdl hcov hchain rfl rfl trivial
  refine ⟨st', h1, ?_, h3, h4⟩
  rw [chainWalk_concat]
  rw [show (List.map List.dropLast st'.donePages).flatten ++ st'.cur =
    walkAcc st' from rfl, h2]
  simp [walkAcc]

theorem setup_prps_cont_ok (palloc : Nat → Option Nat)
    (hpal : ∀ k, (palloc k).isSome) (sg0 : Frag) (payload : Nat)
    (cmnd : RwCmd) (npages0 : Int) (A : Nat) (dl : Int)
    (sgs2 : List Frag)
    (hbig : (ctrlPageSize : Int) < (payload : Int) -
      ((ctrlPageSize - sg0.addr % ctrlPageSize : Nat) : Int))
    (hdl : 0 < dl)
    (hcov : (payload : Int) -
        ((ctrlPageSize - sg0.addr % ctrlPageSize : Nat) : Int) =
      dl + ((sgs2.map Frag.len).sum : Int))
    (hchain : sgs2 = [] ∨ (dl % (4096 : Int) = 0 ∧ fragsAligned sgs2)) :
    ∃ out, setup_prps_cont palloc sg0 payload cmnd npages0 (A, dl, sgs2) =
        some out ∧
      out.status = BlkStatus.ok ∧
      out.cmnd.prp1 = sg0.addr ∧
      chainWalk out.pages = expectedTail A dl sgs2 ∧
      coverOf (expectedTail A dl sgs2)
        ((payload : Int) -
          ((ctrlPageSize - sg0.addr % ctrlPageSize : Nat) : Int)) =
        (payload : Int) -
          ((ctrlPageSize - sg0.addr % ctrlPageSize : Nat) : Int) ∧
      chainLinked palloc 1 out.pages.dropLast := by
  obtain ⟨pd0, hpd0⟩ := Option.isSome_iff_exists.mp (hpal 0)
  have hcp : (0 : Int) < ((ctrlPageSize : Nat) : Int) := by
    simp [ctrlPageSize]
  obtain ⟨st', hloop, hwalk, hcover, hlink⟩ := prp_loop_from_start palloc
    hpal payload
    ((payload : Int) - ((ctrlPageSize - sg0.addr % ctrlPageSize : Nat) : Int))
    dl A sgs2
    (if ((payload : Int) -
          ((ctrlPageSize - sg0.addr % ctrlPageSize : Nat) : Int) +
          (ctrlPageSize : Int) - 1) / (ctrlPageSize : Int) ≤ 256 / 8
      then 0 else 1)
    (by omega) (by omega) hdl hcov hchain
  refine ⟨PrpsOut.mk BlkStatus.ok (RwCmd.mk sg0.addr pd0) pd0 st'.npages
      (st'.donePages ++ [st'.cur]), ?_, rfl, rfl, hwalk, hcover, ?_⟩
  · simp only [setup_prps_cont]
    rw [if_neg (by omega), hpd0, hloop]
  · show chainLinked palloc 1 (st'.donePages ++ [st'.cur]).dropLast
    rw [List.dropLast_concat]
    exact hlink

/-- C3: for every well-formed fragment list whose payload needs the
descriptor-chain path (more than one page beyond the first pointer,
N ≥ 1 chain pages), the builder succeeds; prp1 is the first fragment's
address; walking the built chain yields exactly the fragments'
page-aligned physical addresses in their original order (first
fragment's pages past its first page, then every following fragment's
pages); the bytes covered by prp1 plus the listed pointers equal the
payload exactly; and every completed chain page is full with its last
slot holding the next allocated page's bus address. -/
theorem setup_prps_roundtrip (palloc : Nat → Option Nat)
    (hpal : ∀ k, (palloc k).isSome)
    (sg0 : Frag) (sgs : List Frag) (payload : Nat) (cmnd : RwCmd)
    (npages0 : Int)
    (hok : sglOk sg0 sgs payload)
    (hbig : (ctrlPageSize : Int) <
      (payload : Int) - (firstPrpLen sg0.addr : Int)) :
    ∃ out, apple_nvme_setup_prps palloc sg0 sgs payload cmnd npages0 =
        some out ∧
      out.status = BlkStatus.ok ∧
      out.cmnd.prp1 = sg0.addr ∧
      chainWalk out.pages =
        pagesOf (sg0.addr + firstPrpLen sg0.addr)
          ((sg0.len : Int) - (firstPrpLen sg0.addr : Int)) ++
        (sgs.map fun f => pagesOf f.addr (f.len : Int)).flatten ∧
      (firstPrpLen sg0.addr : Int) +
        coverOf (chainWalk out.pages)
          ((payload : Int) - (firstPrpLen sg0.addr : Int)) =
        (payload : Int) ∧
      chainLinked palloc 1 out.pages.dropLast ∧
      (∀ p ∈ chainWalk out.pages, p % ctrlPageSize = 0) := by
  obtain ⟨hl0, hpay, htail⟩ := hok
  have hoff : sg0.addr % ctrlPageSize < ctrlPageSize := by
    apply Nat.mod_lt
    simp [ctrlPageSize]
  have hc1pos : 0 < firstPrpLen sg0.addr := by
    rw [firstPrpLen]
    omega
  have hc1le : firstPrpLen sg0.addr ≤ ctrlPageSize := by
    rw [firstPrpLen]
    omega
  simp only [firstPrpLen, ctrlPageSize] at hbig htail hoff hc1pos hc1le ⊢
  by_cases hdl0 :
    ((sg0.len : Int) - ((4096 - sg0.addr % 4096 : Nat) : Int)) ≠ 0
  · -- the first fragment extends past its first controller page
    have hdlpos : (0 : Int) <
        (sg0.len : Int) - ((4096 - sg0.addr % 4096 : Nat) : Int) := by
      rcases htail with rfl | ⟨hend, _⟩
      · simp only [List.map_nil, List.sum_nil, Nat.add_zero] at hpay
        omega
      · omega
    have hA : (sg0.addr + (4096 - sg0.addr % 4096)) % 4096 = 0 := by omega
    have hchain2 : sgs = [] ∨
        (((sg0.len : Int) - ((4096 - sg0.addr % 4096 : Nat) : Int)) %
            4096 = 0 ∧ fragsAligned sgs) := by
      rcases htail with rfl | ⟨hend, hal⟩
      · exact Or.inl rfl
      · exact Or.inr ⟨by omega, hal⟩
    have hcov2 : (payload : Int) - ((4096 - sg0.addr % 4096 : Nat) : Int) =
        ((sg0.len : Int) - ((4096 - sg0.addr % 4096 : Nat) : Int)) +
        ((sgs.map Frag.len).sum : Int) := by omega
    have hred : apple_nvme_setup_prps palloc sg0 sgs payload cmnd npages0 =
        setup_prps_cont palloc sg0 payload cmnd npages0
          (sg0.addr + (4096 - sg0.addr % 4096),
           (sg0.len : Int) - ((4096 - sg0.addr % 4096 : Nat) : Int),
           sgs) := by
      simp only [apple_nvme_setup_prps, ctrlPageSize]
      rw [if_neg (by omega), if_pos hdl0]
    obtain ⟨out, heq, hst, hp1, hwalk, hcover, hlinked⟩ :=
      setup_prps_cont_ok palloc hpal sg0 payload cmnd npages0
        (sg0.addr + (4096 - sg0.addr % 4096))
        ((sg0.len : Int) - ((4096 - sg0.addr % 4096 : Nat) : Int)) sgs
        hbig hdlpos hcov2 hchain2
    simp only [ctrlPageSize] at heq hwalk hcover
    rw [hred]
    refine ⟨out, heq, hst, hp1, ?_, ?_, hlinked, ?_⟩
    · rw [hwalk]
      simp only [expectedTail]
    · rw [hwalk, hcover]
      omega
    · rw [hwalk]
      refine expectedTail_aligned _ _ _ hA ?_
      rcases htail with rfl | ⟨_, hal⟩
      · exact Or.inr rfl
      · exact Or.inl hal
  · -- the first fragment ends exactly on its first page boundary
    push_neg at hdl0
    rcases sgs with _ | ⟨f, rest⟩
    · exfalso
      simp only [List.map_nil, List.sum_nil, Nat.add_zero] at hpay
      omega
    · rcases htail with htl | ⟨hend, hal⟩
      · simp at htl
      · obtain ⟨hfa, hflen, hrest⟩ := fragsAligned_cons f rest hal
        have hfa4 : f.addr % 4096 = 0 := hfa
        have hdl : (0 : Int) < (f.len : Int) := by exact_mod_cast hflen
        have hcov2 : (payload : Int) -
            ((4096 - sg0.addr % 4096 : Nat) : Int) =
            (f.len : Int) + ((rest.map Frag.len).sum : Int) := by
          simp only [List.map_cons, List.sum_cons] at hpay
          omega
        have hchain2 : rest = [] ∨
            ((f.len : Int) % 4096 = 0 ∧ fragsAligned rest) := by
          rcases hrest with rfl | ⟨hm, hr⟩
          · exact Or.inl rfl
          · have hm4 : f.len % 4096 = 0 := hm
            exact Or.inr ⟨by omega, hr⟩
        have hred : apple_nvme_setup_prps palloc sg0 (f :: rest) payload
            cmnd npages0 =
            setup_prps_cont palloc sg0 payload cmnd npages0
              (f.addr, (f.len : Int), rest) := by
          simp only [apple_nvme_setup_prps, ctrlPageSize]
          rw [if_neg (by omega), if_neg (by omega)]
        obtain ⟨out, heq, hst, hp1, hwalk, hcover, hlinked⟩ :=
          setup_prps_cont_ok palloc hpal sg0 payload cmnd npages0
            f.addr (f.len : Int) rest hbig hdl hcov2 hchain2
        simp only [ctrlPageSize] at heq hwalk hcover
        rw [hred]
        refine ⟨out, heq, hst, hp1, ?_, ?_, hlinked, ?_⟩
        · rw [hwalk]
          rw [pagesOf_nonpos (sg0.addr + (4096 - sg0.addr % 4096)) _
            (by omega)]
          simp only [expectedTail, List.map_cons, List.flatten_cons,
            List.nil_append]
        · rw [hwalk, hcover]
          omega
        · rw [hwalk]
          refine expectedTail_aligned _ _ _ hfa4 ?_
          rcases hrest with rfl | ⟨_, hr⟩
          · exact Or.inr rfl
          · exact Or.inl hr

/-- A concrete pool-address source: the k-th allocation returns the
page at bus address 100000 + 4096·k. -/
def samplePalloc : Nat → Option Nat := fun k => some (100000 + 4096 * k)

/-- A concrete three-page single fragment starting at address 0. -/
def sampleSg0 : Frag := { addr := 0, len := 12288 }

/-- Witness for C3: a page-aligned single 12288-byte fragment, needing
one descriptor page with two listed pointers. -/
theorem setup_prps_roundtrip_witness :
    ∃ out, apple_nvme_setup_prps samplePalloc sampleSg0 [] 12288
        { prp1 := 0, prp2 := 0 } (-1) = some out ∧
      out.status = BlkStatus.ok ∧
      out.cmnd.prp1 = sampleSg0.addr ∧
      chainWalk out.pages =
        pagesOf (sampleSg0.addr + firstPrpLen sampleSg0.addr)
          ((sampleSg0.len : Int) - (firstPrpLen sampleSg0.addr : Int)) ++
        (([] : List Frag).map fun f => pagesOf f.addr (f.len : Int)).flatten ∧
      (firstPrpLen sampleSg0.addr : Int) +
        coverOf (chainWalk out.pages)
          (((12288 : Nat) : Int) - (firstPrpLen sampleSg0.addr : Int)) =
        ((12288 : Nat) : Int) ∧
      chainLinked samplePalloc 1 out.pages.dropLast ∧
      (∀ p ∈ chainWalk out.pages, p % ctrlPageSize = 0) :=
  setup_prps_roundtrip samplePalloc (fun _ => rfl) sampleSg0 [] 12288
    { prp1 := 0, prp2 := 0 } (-1)
    ⟨by norm_num [sampleSg0], rfl, Or.inl rfl⟩
    (by norm_num [ctrlPageSize, firstPrpLen, sampleSg0])

/-! ## The simple descriptor path: `apple_nvme_setup_prp_simple` and
`apple_nvme_map_data` -/

/-- `struct bio_vec` as used by the simple path: the segment's offset
and length (`req_bvec(req)`). -/
structure Bvec where
  bv_offset : Nat
  bv_len : Nat
  deriving DecidableEq, Repr

/-- Result of `apple_nvme_setup_prp_simple`: status, the command's
pointer fields, `iod->first_dma` and `iod->dma_len`. -/
structure PrpSimpleOut where
  status : BlkStatus
  cmnd : RwCmd
  first_dma : Nat
  dma_len : Nat
  deriving DecidableEq, Repr

/-- `apple_nvme_setup_prp_simple`: map the single fragment
(`dma_map_bvec` is modelled by `mapOk`/`mapped`), point prp1 at it, and
point prp2 just past the first page boundary exactly when the fragment
extends past it; otherwise prp2 is left untouched. -/
def apple_nvme_setup_prp_simple (mapOk : Bool) (mapped : Nat) (bv : Bvec)
    (cmnd : RwCmd) : PrpSimpleOut :=
  let offset := bv.bv_offset % ctrlPageSize
  let first_prp_len := ctrlPageSize - offset
  if mapOk = false then
    { status := .resource, cmnd := cmnd, first_dma := mapped, dma_len := 0 }
  else
    { status := .ok,
      cmnd := { prp1 := mapped,
                prp2 := if first_prp_len < bv.bv_len then
                    mapped + first_prp_len
                  else cmnd.prp2 },
      first_dma := mapped, dma_len := bv.bv_len }

/-- Result of `apple_nvme_map_data`: status, the command's pointer
fields, and whether the simple (pool-free) path was taken. -/
structure MapDataOut where
  status : BlkStatus
  cmnd : RwCmd
  simplePath : Bool
  deriving Repr

/-- `apple_nvme_map_data`: single-segment requests fitting within two
controller pages take the simple path; everything else goes through the
scatterlist mapping (`sgAllocOk` models `mempool_alloc`, `frags` the
mapped scatterlist produced by `blk_rq_map_sg`/`dma_map_sg_attrs`,
`none` meaning those produced no entries) and the PRP chain builder. -/
def apple_nvme_map_data (palloc : Nat → Option Nat) (nsegs : Nat)
    (bv : Bvec) (mapBvOk : Bool) (mapped : Nat) (sgAllocOk : Bool)
    (frags : Option (Frag × List Frag)) (payload : Nat) (cmnd : RwCmd) :
    Option MapDataOut :=
  if nsegs = 1 ∧ bv.bv_offset + bv.bv_len ≤ ctrlPageSize * 2 then
    let r := apple_nvme_setup_prp_simple mapBvOk mapped bv cmnd
    some { status := r.status, cmnd := r.cmnd, simplePath := true }
  else if sgAllocOk = false then
    some { status := .resource, cmnd := cmnd, simplePath := false }
  else
    match frags with
    | none => some { status := .resource, cmnd := cmnd, simplePath := false }
    | some (sg0, sgs) =>
      match apple_nvme_setup_prps palloc sg0 sgs payload cmnd (-1) with
      | none => none
      | some out =>
        some { status := out.status, cmnd := out.cmnd, simplePath := false }

/-- C4: every single-segment request whose offset plus length fits in
two controller pages takes the simple path: the result does not depend
on the descriptor pools at all (no pool allocation), prp1 is the
mapped address, and prp2 is the mapped address plus the bytes remaining
in the first page exactly when the segment extends past the first page
boundary (otherwise it is left unchanged). -/
theorem map_data_simple_path (palloc : Nat → Option Nat) (bv : Bvec)
    (mapped : Nat) (sgAllocOk : Bool) (frags : Option (Frag × List Frag))
    (payload : Nat) (cmnd : RwCmd)
    (hfit : bv.bv_offset + bv.bv_len ≤ ctrlPageSize * 2) :
    ∃ out, apple_nvme_map_data palloc 1 bv true mapped sgAllocOk frags
        payload cmnd = some out ∧
      out.simplePath = true ∧
      out.status = BlkStatus.ok ∧
      out.cmnd.prp1 = mapped ∧
      (ctrlPageSize - bv.bv_offset % ctrlPageSize < bv.bv_len →
        out.cmnd.prp2 =
          mapped + (ctrlPageSize - bv.bv_offset % ctrlPageSize)) ∧
      (bv.bv_len ≤ ctrlPageSize - bv.bv_offset % ctrlPageSize →
        out.cmnd.prp2 = cmnd.prp2) ∧
      (∀ palloc' : Nat → Option Nat,
        apple_nvme_map_data palloc' 1 bv true mapped sgAllocOk frags
          payload cmnd =
        apple_nvme_map_data palloc 1 bv true mapped sgAllocOk frags
          payload cmnd) := by
  refine ⟨MapDataOut.mk BlkStatus.ok
      (RwCmd.mk mapped
        (if ctrlPageSize - bv.bv_offset % ctrlPageSize < bv.bv_len then
          mapped + (ctrlPageSize - bv.bv_offset % ctrlPageSize)
        else cmnd.prp2)) true, ?_, rfl, rfl, rfl, ?_, ?_, ?_⟩
  · simp [apple_nvme_map_data, hfit, apple_nvme_setup_prp_simple]
  · intro h
    simp [h]
  · intro h
    simp [Nat.not_lt.mpr h]
  · intro palloc'
    simp only [apple_nvme_map_data]
    rw [if_pos ⟨trivial, hfit⟩, if_pos ⟨trivial, hfit⟩]

/-- A concrete single segment: offset 512, length 4096 — it extends
past the first page boundary, so both pointers are used. -/
def sampleBvec : Bvec := { bv_offset := 512, bv_len := 4096 }

/-- Witness for C4 at the concrete segment `sampleBvec`. -/
theorem map_data_simple_path_witness :
    ∃ out, apple_nvme_map_data samplePalloc 1 sampleBvec true 70000 true
        none 4096 { prp1 := 0, prp2 := 0 } = some out ∧
      out.simplePath = true ∧
      out.status = BlkStatus.ok ∧
      out.cmnd.prp1 = 70000 ∧
      (ctrlPageSize - sampleBvec.bv_offset % ctrlPageSize <
          sampleBvec.bv_len →
        out.cmnd.prp2 =
          70000 + (ctrlPageSize - sampleBvec.bv_offset % ctrlPageSize)) ∧
      (sampleBvec.bv_len ≤
          ctrlPageSize - sampleBvec.bv_offset % ctrlPageSize →
        out.cmnd.prp2 = RwCmd.prp2 { prp1 := 0, prp2 := 0 }) ∧
      (∀ palloc' : Nat → Option Nat,
        apple_nvme_map_data palloc' 1 sampleBvec true 70000 true none 4096
          { prp1 := 0, prp2 := 0 } =
        apple_nvme_map_data samplePalloc 1 sampleBvec true 70000 true none
          4096 { prp1 := 0, prp2 := 0 }) :=
  map_data_simple_path samplePalloc sampleBvec 70000 true none 4096
    { prp1 := 0, prp2 := 0 } (by norm_num [sampleBvec, ctrlPageSize])

/-- C10: in the simple path, a single segment confined to its first
controller page (length at most the page size minus the in-page
offset) gets only prp1 written; the prp2 field keeps whatever value the
incoming command had, so the transfer carries a single pointer. -/
theorem setup_prp_simple_one_page_frame (mapped : Nat) (bv : Bvec)
    (cmnd : RwCmd)
    (hone : bv.bv_len ≤ ctrlPageSize - bv.bv_offset % ctrlPageSize) :
    apple_nvme_setup_prp_simple true mapped bv cmnd =
      { status := BlkStatus.ok,
        cmnd := { prp1 := mapped, prp2 := cmnd.prp2 },
        first_dma := mapped, dma_len := bv.bv_len } := by
  simp [apple_nvme_setup_prp_simple, Nat.not_lt.mpr hone]

/-- Witness for C10: a 1024-byte segment at offset 512 stays within the
first page; prp2 keeps the incoming value 77. -/
theorem setup_prp_simple_one_page_frame_witness :
    apple_nvme_setup_prp_simple true 70000
        { bv_offset := 512, bv_len := 1024 } { prp1 := 3, prp2 := 77 } =
      { status := BlkStatus.ok,
        cmnd := { prp1 := 70000,
                  prp2 := RwCmd.prp2 { prp1 := 3, prp2 := 77 } },
        first_dma := 70000,
        dma_len := Bvec.bv_len { bv_offset := 512, bv_len := 1024 } } :=
  setup_prp_simple_one_page_frame 70000
    { bv_offset := 512, bv_len := 1024 } { prp1 := 3, prp2 := 77 }
    (by norm_num [ctrlPageSize])

end AppleAns
